import Mathlib

/-!
Verification of the mcp-apple-notes core (src/index.ts)

Shallow embedding of the indexing pipeline (`indexNotes`), the hybrid search
merger (`searchAndCombineResults` with its inner `processResults`), and the
schema provisioner (`createNotesTable`) from `src/index.ts`, together with
proofs settling the frozen claims about them.

Modelling conventions:
* JavaScript promises that either resolve or reject are embedded as
  `Except String α` (the `String` is the rejection's `error.message`).
* The Document Source (`getNotes`, `getNoteDetailsByTitle`), the content
  normalizer (`turndown`) and the storage engine are external collaborators:
  the embedded functions are parametrised over their behaviours.
* `getNoteDetailsByTitle` is an `async` function: it parses the JXA result
  into a typed record, and a not-found note surfaces as the parse of `"{}"`,
  i.e. a record whose fields are all absent (embedded as `""`).  Being
  `async`, a call to it never throws synchronously: any failure inside it
  becomes a rejection of the returned promise.
-/

namespace AppleNotes

/-- A document detail record as parsed by `getNoteDetailsByTitle`
(`src/index.ts:180-185`).  A missing field (the `"{}"` not-found case)
is embedded as the empty string. -/
structure NoteDetail where
  title : String
  content : String
  creation_date : String
  modification_date : String
deriving DecidableEq, Repr

/-- One record passed to the bulk insert `notesTable.add(chunks)`
(`src/index.ts:215-221`). -/
structure IndexedChunk where
  id : String
  title : String
  content : String
  creation_date : String
  modification_date : String
deriving DecidableEq, Repr

/-- The value returned by `indexNotes` (`src/index.ts:225-230`), extended
with `inserted`, the chunk list passed to `notesTable.add` (the observable
effect on storage).  The wall-clock `time` field is not modelled. -/
structure IndexRun where
  inserted : List IndexedChunk
  chunks : Nat
  report : String
  allNotes : Nat
deriving DecidableEq, Repr

/-- `node.content || ""` from `src/index.ts:209`: on a (non-null) string this
replaces `""` by `""` and keeps anything else, i.e. it is the identity. -/
def jsOrEmpty (s : String) : String :=
  if s = "" then "" else s

/-- The normalization step of the pipeline (`src/index.ts:205-214`):
`try { return {...node, content: turndown(node.content || "")} }
catch { return node }`.  A throwing normalizer leaves the node unchanged;
a successful one replaces only `content`. -/
def normalizeNode (turndown : String → Except String String)
    (node : NoteDetail) : NoteDetail :=
  match turndown (jsOrEmpty node.content) with
  | .ok c => { node with content := c }
  | .error _ => node

/-- The chunk constructed at position `index` of the filtered, normalized
sequence (`src/index.ts:215-221`). -/
def mkChunk (p : Nat × NoteDetail) : IndexedChunk :=
  { id := toString p.1
    title := p.2.title
    content := p.2.content
    creation_date := p.2.creation_date
    modification_date := p.2.modification_date }

/-- The chunk pipeline of `indexNotes` (`src/index.ts:203-221`):
`notesDetails.filter((n) => n.title).map(<normalize with local catch>)
.map((note, index) => ({id: index.toString(), ...}))`. -/
def chunksOf (turndown : String → Except String String)
    (notesDetails : List NoteDetail) : List IndexedChunk :=
  ((notesDetails.filter (fun n => n.title != "")).map
      (normalizeNode turndown)).enum.map mkChunk

/-- Embedding of `indexNotes` (`src/index.ts:188-231`).

* `getNotesResult` is the outcome of `await getNotes()`: a rejection
  (`Except.error`), or a resolved value that may be null-ish
  (`Option`); `(await getNotes()) || []` is `(← getNotesResult).getD []`.
* The per-title stage of the source is
  `await Promise.all(allNotes.map((note) => { try { return
  getNoteDetailsByTitle(note); } catch (error) { report += ...; return {}; }
  }))`.  `getNoteDetailsByTitle` is an `async` function, so the call inside
  `try` only builds and returns a promise and can never throw synchronously;
  a failed fetch rejects that promise, the rejection propagates through
  `Promise.all` past the (synchronous) `catch`, and the `await` re-throws it
  out of `indexNotes`.  The `catch` branch is therefore unreachable: the
  stage is `allNotes.mapM fetch` and `report` is never appended to.
* Then: filter out empty titles, normalize each survivor with local failure
  absorption, assign sequential string ids by position, and hand the chunk
  list to the bulk insert. -/
def indexNotes (fetch : String → Except String NoteDetail)
    (turndown : String → Except String String)
    (getNotesResult : Except String (Option (List String))) :
    Except String IndexRun := do
  let report : String := ""
  let allNotes := (← getNotesResult).getD []
  let notesDetails ← allNotes.mapM fetch
  let chunks := chunksOf turndown notesDetails
  pure
    { inserted := chunks
      chunks := chunks.length
      report := report
      allNotes := allNotes.length }

/-- A search hit as selected by either search strategy
(`src/index.ts:365-375`): the four display fields. -/
structure SearchHit where
  title : String
  content : String
  creation_date : String
  modification_date : String
deriving DecidableEq, Repr

/-- One `map.set(k, v)` step of a JavaScript `Map` represented as an
insertion-ordered association list: setting an existing key updates its
value in place (keeping its position), setting a new key appends it. -/
def mapSet (m : List (String × SearchHit)) (k : String) (v : SearchHit) :
    List (String × SearchHit) :=
  if m.any (fun p => p.1 == k) then
    m.map (fun p => if p.1 == k then (k, v) else p)
  else m ++ [(k, v)]

/-- `new Map(entries)` (`src/index.ts:380`): fold the entry list through
`mapSet` in order, starting from the empty map. -/
def jsMapOfList (entries : List (String × SearchHit)) :
    List (String × SearchHit) :=
  entries.foldl (fun m p => mapSet m p.1 p.2) []

/-- The deduplication of `searchAndCombineResults` (`src/index.ts:378-381`):
`Array.from(new Map(allResults.map(item => [item.title, item])).values())`
over the concatenation of semantic then full-text hits. -/
def uniqueResults (semanticResults fullTextResults : List SearchHit) :
    List SearchHit :=
  (jsMapOfList
      ((semanticResults ++ fullTextResults).map (fun item => (item.title, item)))).map
    Prod.snd

/-- The snippet of `processResults` (`src/index.ts:387-390`):
`content.length > 300 ? content.substring(0, 300) + "..." : content`. -/
def snippet (content : String) : String :=
  if content.length > 300 then content.take 300 ++ "..." else content

/-- `processResults` (`src/index.ts:383-394`): render each hit as
`"{rank}. **{title}**\n{snippet}\n"` with `rank = startRank + index`,
joined by `"\n"`. -/
def processResults (results : List SearchHit) (startRank : Nat) : String :=
  String.intercalate "\n"
    (results.enum.map (fun p =>
      toString (startRank + p.1) ++ ". **" ++ p.2.title ++ "**\n" ++
        snippet p.2.content ++ "\n"))

/-- Embedding of `searchAndCombineResults` (`src/index.ts:359-399`) after
both storage queries have resolved: the two hit lists are its inputs (a
rejection of either query rejects the whole search before this point).
Combines, deduplicates, truncates to `limit`, renders, and prefixes the
`Found {N} notes matching "{query}":` header with the pre-truncation
deduplicated count. -/
def searchAndCombineResults (semanticResults fullTextResults : List SearchHit)
    (query : String) (limit : Nat := 20) : String :=
  let unique := uniqueResults semanticResults fullTextResults
  let resultText := processResults (unique.take limit) 1
  "Found " ++ toString unique.length ++ " notes matching \"" ++ query ++
    "\":\n\n" ++ resultText

/-!
Schema provisioner (`createNotesTable`, `src/index.ts:233-256`)

The storage engine (LanceDB) is an external collaborator; its operations are
modelled from the spec's interface description (§6), and `createNotesTable`
itself is embedded from the source over that model.  The observable state is
which tables exist and which named indices each table carries.
-/

/-- The index state of one table: the list of its secondary index names. -/
structure TableInfo where
  indices : List String
deriving DecidableEq, Repr

/-- Storage-engine state: the tables (in creation order) with their index
names. -/
structure DB where
  tables : List (String × TableInfo)
deriving DecidableEq, Repr

/-- One storage call made by `createNotesTable`, recorded for the trace. -/
inductive StorageAction where
  | createTable (name : String)
  | createIndex (table : String) (field : String)
deriving DecidableEq, Repr

/-- Modelled from the spec: the Storage Engine's
`createTable(name, schema, {mode: "create", existOk: true})` — idempotent
table creation: an existing table of that name is returned unchanged,
otherwise an empty table (with no indices) is created. -/
def createEmptyTable (db : DB) (name : String) : DB :=
  if db.tables.any (fun p => p.1 == name) then db
  else { tables := db.tables ++ [(name, { indices := [] })] }

/-- Modelled from the spec: `Table.listIndices()` — the index names of the
named table (empty if the table does not exist). -/
def listIndices (db : DB) (name : String) : List String :=
  match db.tables.find? (fun p => p.1 == name) with
  | some p => p.2.indices
  | none => []

/-- Modelled from the spec: `Table.createIndex("content", {config: fts,
replace: true})` — creates a full-text index over the content field named
`content_idx` (the field name suffixed with `_idx`); with the replace policy
a stale index of that same name is superseded, while indices of other names
are left untouched. -/
def createContentIndex (db : DB) (name : String) : DB :=
  { tables := db.tables.map (fun p =>
      if p.1 == name then
        (p.1, { indices :=
          p.2.indices.filter (fun i => i != "content_idx") ++ ["content_idx"] })
      else p) }

/-- Embedding of `createNotesTable` (`src/index.ts:233-256`): create the
table (default name `notes`) idempotently, list its indices, and create the
content full-text index only when no index named `content_idx` is listed.
Returns the resulting storage state together with the trace of storage
calls made. -/
def createNotesTable (db : DB) (overrideName : Option String) :
    DB × List StorageAction :=
  let name := overrideName.getD "notes"
  let db1 := createEmptyTable db name
  let indices := listIndices db1 name
  if indices.any (fun i => i == "content_idx") then
    (db1, [.createTable name])
  else
    (createContentIndex db1 name, [.createTable name, .createIndex name "content"])

/-!
Specification-side characterizations used to state the claims
-/

/-- The subsequence of first occurrences: keeps the first copy of every
string and drops later duplicates (used to state which title occupies which
position after deduplication). -/
def firstKeys : List String → List String
  | [] => []
  | k :: ks => k :: (firstKeys ks).filter (fun x => x != k)

/-- The last hit in `l` carrying title `t` (used to state which copy's
content survives deduplication). -/
def lastWithTitle (l : List SearchHit) (t : String) : Option SearchHit :=
  l.reverse.find? (fun r => r.title == t)

/-!
Concrete fixtures (used in witnesses and counterexamples)
-/

/-- A document source on which every detail fetch resolves. -/
def okFetch (t : String) : Except String NoteDetail :=
  .ok { title := t, content := "raw " ++ t, creation_date := "c",
        modification_date := "m" }

/-- A normalizer that succeeds on every input. -/
def okTurndown (s : String) : Except String String := .ok ("md " ++ s)

/-- A document source whose fetch rejects (with message `boom`) exactly for
title `B` and resolves for every other title. -/
def failFetchB (t : String) : Except String NoteDetail :=
  if t = "B" then .error "boom" else okFetch t

/-- The detail list produced by `okFetch` on titles `["A", "", "B"]`. -/
def okDetails : List NoteDetail :=
  [{ title := "A", content := "raw A", creation_date := "c", modification_date := "m" },
   { title := "", content := "raw ", creation_date := "c", modification_date := "m" },
   { title := "B", content := "raw B", creation_date := "c", modification_date := "m" }]

/-- The report of `indexNotes okFetch okTurndown` on titles `["A", "", "B"]`:
the empty-titled detail is filtered, the two survivors are indexed with
sequential ids. -/
def okRun : IndexRun :=
  { inserted :=
      [{ id := "0", title := "A", content := "md raw A", creation_date := "c",
         modification_date := "m" },
       { id := "1", title := "B", content := "md raw B", creation_date := "c",
         modification_date := "m" }]
    chunks := 2
    report := ""
    allNotes := 3 }

/-- Semantic hit `A` of the spec's dedup scenario. -/
def hitA : SearchHit :=
  { title := "A", content := "sem A", creation_date := "", modification_date := "" }

/-- Semantic copy of hit `B` of the spec's dedup scenario. -/
def hitBsem : SearchHit :=
  { title := "B", content := "sem B", creation_date := "", modification_date := "" }

/-- Lexical copy of hit `B` of the spec's dedup scenario (same title as
`hitBsem`, different content). -/
def hitBlex : SearchHit :=
  { title := "B", content := "lex B", creation_date := "", modification_date := "" }

/-- Lexical hit `C` of the spec's dedup scenario. -/
def hitC : SearchHit :=
  { title := "C", content := "lex C", creation_date := "", modification_date := "" }

/-!
General lemmas about `Except` and `List.mapM`
-/

theorem exbind_ok {α β : Type} (a : α) (f : α → Except String β) :
    (Except.ok a >>= f) = f a := rfl

theorem exbind_error {α β : Type} (e : String) (f : α → Except String β) :
    ((Except.error e : Except String α) >>= f) = .error e := rfl

theorem expure_eq {α : Type} (a : α) : (pure a : Except String α) = .ok a := rfl

theorem exmap_ok {α β : Type} (f : α → β) (a : α) :
    (Except.ok a : Except String α).map f = .ok (f a) := rfl

theorem exmap_error {α β : Type} (f : α → β) (e : String) :
    (Except.error e : Except String α).map f = .error e := rfl

theorem mapM_ok_length {α β : Type} (f : α → Except String β) :
    ∀ (l : List α) (l' : List β), l.mapM f = .ok l' → l'.length = l.length := by
  intro l
  rw [← List.mapM'_eq_mapM]
  induction l with
  | nil =>
    intro l' h
    simp only [List.mapM', expure_eq, Except.ok.injEq] at h
    simp [← h]
  | cons a t ih =>
    intro l' h
    simp only [List.mapM'] at h
    cases hf : f a with
    | error e => rw [hf, exbind_error] at h; exact absurd h (by simp)
    | ok b =>
      rw [hf, exbind_ok] at h
      cases ht : t.mapM' f with
      | error e => rw [ht, exbind_error] at h; exact absurd h (by simp)
      | ok bs =>
        rw [ht, exbind_ok, expure_eq] at h
        cases h
        simp [ih bs ht]

/-!
Shape lemmas for `indexNotes`
-/

theorem jsOrEmpty_eq (s : String) : jsOrEmpty s = s := by
  unfold jsOrEmpty
  split <;> simp_all

theorem normalizeNode_title (g : String → Except String String) (n : NoteDetail) :
    (normalizeNode g n).title = n.title := by
  unfold normalizeNode
  split <;> rfl

/-- A rejected title-listing call propagates out of `indexNotes`. -/
theorem indexNotes_error_eq (fetch : String → Except String NoteDetail)
    (turndown : String → Except String String) (e : String) :
    indexNotes fetch turndown (.error e) = .error e := rfl

/-- The value of `indexNotes` on a resolved title-listing result. -/
theorem indexNotes_ok_eq (fetch : String → Except String NoteDetail)
    (turndown : String → Except String String) (notes : Option (List String)) :
    indexNotes fetch turndown (.ok notes) =
      ((notes.getD []).mapM fetch).map (fun details =>
        { inserted := chunksOf turndown details
          chunks := (chunksOf turndown details).length
          report := ""
          allNotes := (notes.getD []).length }) := by
  unfold indexNotes
  cases h : (notes.getD []).mapM fetch with
  | error e => rw [exbind_ok]; dsimp only; rw [h, exbind_error, exmap_error]
  | ok details => rw [exbind_ok]; dsimp only; rw [h, exbind_ok, expure_eq, exmap_ok]

theorem chunksOf_map_id (g : String → Except String String)
    (details : List NoteDetail) :
    (chunksOf g details).map (fun c => c.id)
      = (List.range (chunksOf g details).length).map toString := by
  unfold chunksOf
  rw [List.map_map, List.length_map, List.enum_length]
  have h1 : ((fun c : IndexedChunk => c.id) ∘ mkChunk)
      = (toString ∘ Prod.fst : Nat × NoteDetail → String) := rfl
  rw [h1, ← List.map_map, List.enum_map_fst]

theorem chunksOf_map_title (g : String → Except String String)
    (details : List NoteDetail) :
    (chunksOf g details).map (fun c => c.title)
      = (details.filter (fun n => n.title != "")).map (fun n => n.title) := by
  unfold chunksOf
  rw [List.map_map]
  have h1 : ((fun c : IndexedChunk => c.title) ∘ mkChunk)
      = ((fun n => n.title) ∘ (Prod.snd : Nat × NoteDetail → NoteDetail)) := rfl
  rw [h1, ← List.map_map, List.enum_map_snd, List.map_map]
  exact List.map_congr_left fun n _ => normalizeNode_title g n

theorem chunksOf_title_ne (g : String → Except String String)
    (details : List NoteDetail) :
    ∀ c ∈ chunksOf g details, c.title ≠ "" := by
  intro c hc
  unfold chunksOf at hc
  rw [List.mem_map] at hc
  obtain ⟨p, hp, rfl⟩ := hc
  have hsnd : p.2 ∈ ((details.filter (fun n => n.title != "")).map
      (normalizeNode g)).enum.map Prod.snd := List.mem_map_of_mem Prod.snd hp
  rw [List.enum_map_snd, List.mem_map] at hsnd
  obtain ⟨n, hn, hne⟩ := hsnd
  rw [List.mem_filter] at hn
  have ht : (mkChunk p).title = n.title := by
    show p.2.title = n.title
    rw [← hne, normalizeNode_title]
  rw [ht]
  exact bne_iff_ne.mp hn.2

theorem chunksOf_length_le (g : String → Except String String)
    (details : List NoteDetail) :
    (chunksOf g details).length ≤ details.length := by
  unfold chunksOf
  rw [List.length_map, List.enum_length, List.length_map]
  exact List.length_filter_le _ details

/-!
Claim theorems
-/

/-- C1: the spec claims per-title fault isolation — one failing detail fetch
should leave all other titles indexed and append exactly one error line to
the report.  The code does not do this: `getNoteDetailsByTitle` is `async`,
so its failure is a promise rejection that the synchronous `try/catch`
inside `allNotes.map(...)` cannot intercept; the rejection propagates
through `Promise.all` and aborts the whole run with no report.  At the
failing input below (titles `A`, `B`, `C`, where only `B`'s fetch rejects
with message `boom`) `indexNotes` returns the error instead of a report:
nothing is indexed and no error line is produced. -/
theorem C1_single_rejection_aborts_run :
    indexNotes failFetchB okTurndown (.ok (some ["A", "B", "C"])) = .error "boom" := rfl

/-- C8 (counterexample): the claim says a failed title-listing call is
treated as an empty title list and the run completes with `allNotes = 0`.
In the code `(await getNotes()) || []` only guards a null-ish resolved
value: a rejected `getNotes()` call re-throws out of `indexNotes`, which
therefore does not return a report at this concrete input. -/
theorem C8_counterexample :
    indexNotes okFetch okTurndown (.error "jxa down") = .error "jxa down" := rfl

/-- C8 (amended): if the title-listing call resolves to a missing (null-ish)
result, `indexNotes` treats it as an empty title list and completes with
`allNotes = 0` and `chunks = 0` (and nothing inserted); but if the
title-listing call itself fails, that failure propagates as an error for
the whole run. -/
theorem C8_missing_titles_empty_run (fetch : String → Except String NoteDetail)
    (turndown : String → Except String String) :
    (indexNotes fetch turndown (.ok none) =
      .ok { inserted := [], chunks := 0, report := "", allNotes := 0 })
    ∧ (∀ e, indexNotes fetch turndown (.error e) = .error e) :=
  ⟨rfl, fun _ => rfl⟩

/-- C9: on every completed run, every chunk passed to the bulk insert has a
non-empty title, and the count of indexed chunks never exceeds the count of
discovered titles. -/
theorem C9_invariants (fetch : String → Except String NoteDetail)
    (turndown : String → Except String String)
    (r : Except String (Option (List String))) (run : IndexRun)
    (h : indexNotes fetch turndown r = .ok run) :
    (∀ c ∈ run.inserted, c.title ≠ "") ∧ run.chunks ≤ run.allNotes := by
  cases r with
  | error e => rw [indexNotes_error_eq] at h; cases h
  | ok notes =>
    rw [indexNotes_ok_eq] at h
    cases hm : (notes.getD []).mapM fetch with
    | error e => rw [hm, exmap_error] at h; cases h
    | ok details =>
      rw [hm, exmap_ok, Except.ok.injEq] at h
      subst h
      refine ⟨chunksOf_title_ne turndown details, ?_⟩
      show (chunksOf turndown details).length ≤ (notes.getD []).length
      calc (chunksOf turndown details).length
          ≤ details.length := chunksOf_length_le turndown details
        _ = (notes.getD []).length := mapM_ok_length fetch _ details hm

/-- C9 (witness): the invariant instantiated on the concrete fixture run. -/
theorem C9_witness : okRun.chunks ≤ okRun.allNotes :=
  (C9_invariants okFetch okTurndown (.ok (some ["A", "", "B"])) okRun rfl).2

/-- C10: whenever `indexNotes` returns a report at all (rather than
propagating an error), its `report` field is the empty string — the
error-line-appending `catch` is unreachable, so no error line is ever
appended on any completed run. -/
theorem C10_report_always_empty (fetch : String → Except String NoteDetail)
    (turndown : String → Except String String)
    (r : Except String (Option (List String))) (run : IndexRun)
    (h : indexNotes fetch turndown r = .ok run) : run.report = "" := by
  cases r with
  | error e => rw [indexNotes_error_eq] at h; cases h
  | ok notes =>
    rw [indexNotes_ok_eq] at h
    cases hm : (notes.getD []).mapM fetch with
    | error e => rw [hm, exmap_error] at h; cases h
    | ok details =>
      rw [hm, exmap_ok, Except.ok.injEq] at h
      subst h
      rfl

/-- C10 (witness): the concrete fixture run has an empty report. -/
theorem C10_witness : okRun.report = "" :=
  C10_report_always_empty okFetch okTurndown (.ok (some ["A", "", "B"])) okRun rfl

/-- C3: on every completed run over titles `[t0..tn]`, the chunk ids in
bulk-insert order are the decimal strings `"0", "1", ...` of their zero-based
positions, the chunk titles are exactly the titles of the details that
survived the non-empty-title filter in their original relative order (the
filtered details being a subsequence of the full detail list, which is
positionally aligned with `[t0..tn]`), and no sorting is applied. -/
theorem C3_order_and_ids (fetch : String → Except String NoteDetail)
    (turndown : String → Except String String)
    (titles : List String) (details : List NoteDetail) (run : IndexRun)
    (hd : titles.mapM fetch = .ok details)
    (h : indexNotes fetch turndown (.ok (some titles)) = .ok run) :
    (run.inserted.map (fun c => c.id)
        = (List.range run.inserted.length).map toString)
    ∧ (run.inserted.map (fun c => c.title)
        = (details.filter (fun n => n.title != "")).map (fun n => n.title))
    ∧ (details.filter (fun n => n.title != "")).Sublist details
    ∧ details.length = titles.length := by
  rw [indexNotes_ok_eq] at h
  dsimp only [Option.getD] at h
  rw [hd, exmap_ok, Except.ok.injEq] at h
  subst h
  exact ⟨chunksOf_map_id turndown details, chunksOf_map_title turndown details,
    List.filter_sublist details, mapM_ok_length fetch titles details hd⟩

/-- C3 (witness): the order/id correspondence on the concrete fixture run
over titles `["A", "", "B"]`. -/
theorem C3_witness :
    (okRun.inserted.map (fun c => c.id)
        = (List.range okRun.inserted.length).map toString)
    ∧ (okRun.inserted.map (fun c => c.title)
        = (okDetails.filter (fun n => n.title != "")).map (fun n => n.title))
    ∧ (okDetails.filter (fun n => n.title != "")).Sublist okDetails
    ∧ okDetails.length = ["A", "", "B"].length :=
  C3_order_and_ids okFetch okTurndown ["A", "", "B"] okDetails okRun rfl rfl

/-- C4: on every completed run, each surviving detail is indexed through the
locally-caught normalization step — exactly one chunk per filtered detail,
so a normalizer failure never drops a document; a throwing normalizer leaves
the detail's raw content unchanged while a successful one replaces the
content with the normalized text; and no normalizer behavior can fail the
indexing run itself. -/
theorem C4_normalizer_absorbed (fetch : String → Except String NoteDetail)
    (turndown : String → Except String String)
    (titles : List String) (details : List NoteDetail) (run : IndexRun)
    (hd : titles.mapM fetch = .ok details)
    (h : indexNotes fetch turndown (.ok (some titles)) = .ok run) :
    (run.inserted = ((details.filter (fun n => n.title != "")).map
        (normalizeNode turndown)).enum.map mkChunk)
    ∧ run.inserted.length = (details.filter (fun n => n.title != "")).length
    ∧ (∀ node e, turndown (jsOrEmpty node.content) = .error e →
        normalizeNode turndown node = node)
    ∧ (∀ node c, turndown (jsOrEmpty node.content) = .ok c →
        normalizeNode turndown node = { node with content := c })
    ∧ (∀ g : String → Except String String, ∃ run2,
        indexNotes fetch g (.ok (some titles)) = .ok run2) := by
  rw [indexNotes_ok_eq] at h
  dsimp only [Option.getD] at h
  rw [hd, exmap_ok, Except.ok.injEq] at h
  subst h
  refine ⟨rfl, ?_, ?_, ?_, ?_⟩
  · show (chunksOf turndown details).length = _
    unfold chunksOf
    rw [List.length_map, List.enum_length, List.length_map]
  · intro node e he
    unfold normalizeNode
    rw [he]
  · intro node c hc
    unfold normalizeNode
    rw [hc]
  · intro g
    refine ⟨{ inserted := chunksOf g details
              chunks := (chunksOf g details).length
              report := ""
              allNotes := titles.length }, ?_⟩
    rw [indexNotes_ok_eq]
    dsimp only [Option.getD]
    rw [hd, exmap_ok]

/-- C4 (witness): on the concrete fixture run, no surviving document is
dropped by normalization. -/
theorem C4_witness :
    okRun.inserted.length = (okDetails.filter (fun n => n.title != "")).length :=
  (C4_normalizer_absorbed okFetch okTurndown ["A", "", "B"] okDetails okRun rfl rfl).2.1

/-!
Deduplication lemmas (`uniqueResults`)
-/

theorem mem_firstKeys (k : String) (ks : List String) :
    k ∈ firstKeys ks ↔ k ∈ ks := by
  induction ks with
  | nil => simp [firstKeys]
  | cons a t ih =>
    simp only [firstKeys, List.mem_cons, List.mem_filter, bne_iff_ne]
    constructor
    · rintro (rfl | ⟨hk, _⟩)
      · exact Or.inl rfl
      · exact Or.inr (ih.mp hk)
    · rintro (rfl | hk)
      · exact Or.inl rfl
      · by_cases hka : k = a
        · exact Or.inl hka
        · exact Or.inr ⟨ih.mpr hk, hka⟩

theorem firstKeys_concat (ks : List String) (k : String) :
    firstKeys (ks ++ [k]) = if k ∈ ks then firstKeys ks else firstKeys ks ++ [k] := by
  induction ks with
  | nil => simp [firstKeys]
  | cons a t ih =>
    have hceq : firstKeys ((a :: t) ++ [k])
        = a :: (firstKeys (t ++ [k])).filter (fun x => x != a) := rfl
    rw [hceq, ih]
    by_cases hkt : k ∈ t
    · rw [if_pos hkt, if_pos (List.mem_cons_of_mem a hkt)]
      rfl
    · rw [if_neg hkt]
      by_cases hka : k = a
      · rw [if_pos (hka ▸ List.mem_cons_self k t), List.filter_append]
        subst hka
        simp [firstKeys]
      · rw [if_neg (fun hm => (List.mem_cons.mp hm).elim hka hkt),
          List.filter_append]
        have hk1 : [k].filter (fun x => x != a) = [k] := by
          have hb : (k != a) = true := bne_iff_ne.mpr hka
          simp [List.filter, hb]
        rw [hk1]
        show a :: ((firstKeys t).filter (fun x => x != a) ++ [k])
          = (a :: (firstKeys t).filter (fun x => x != a)) ++ [k]
        rw [List.cons_append]

theorem mapSet_keys (m : List (String × SearchHit)) (k : String) (v : SearchHit) :
    (mapSet m k v).map Prod.fst =
      if k ∈ m.map Prod.fst then m.map Prod.fst else m.map Prod.fst ++ [k] := by
  unfold mapSet
  by_cases hk : k ∈ m.map Prod.fst
  · have hany : m.any (fun p => p.1 == k) = true := by
      rw [List.any_eq_true]
      rw [List.mem_map] at hk
      obtain ⟨p, hp, hpk⟩ := hk
      exact ⟨p, hp, by simp [hpk]⟩
    rw [if_pos hany, if_pos hk, List.map_map]
    refine List.map_congr_left fun p _ => ?_
    by_cases hpk : p.1 = k
    · simp [Function.comp, hpk]
    · simp [Function.comp, hpk]
  · have hany : ¬ m.any (fun p => p.1 == k) = true := by
      rw [List.any_eq_true]
      rintro ⟨p, hp, hpk⟩
      rw [beq_iff_eq] at hpk
      exact hk (hpk ▸ List.mem_map_of_mem Prod.fst hp)
    rw [if_neg hany, if_neg hk, List.map_append]
    rfl

theorem mem_mapSet (m : List (String × SearchHit)) (k : String) (v : SearchHit) :
    ∀ q ∈ mapSet m k v, q = (k, v) ∨ (q ∈ m ∧ q.1 ≠ k) := by
  intro q hq
  unfold mapSet at hq
  split at hq
  case isTrue h =>
    rw [List.mem_map] at hq
    obtain ⟨p, hp, hpq⟩ := hq
    by_cases hpk : p.1 = k
    · left
      rw [← hpq, if_pos (by simp [hpk])]
    · right
      rw [← hpq, if_neg (by simp [hpk])]
      exact ⟨hp, hpk⟩
  case isFalse h =>
    rw [List.mem_append] at hq
    rcases hq with hq | hq
    · right
      refine ⟨hq, fun hqk => h ?_⟩
      rw [List.any_eq_true]
      exact ⟨q, hq, by simp [hqk]⟩
    · left
      simpa using hq

theorem jsMapOfList_concat (entries : List (String × SearchHit))
    (p : String × SearchHit) :
    jsMapOfList (entries ++ [p]) = mapSet (jsMapOfList entries) p.1 p.2 := by
  unfold jsMapOfList
  rw [List.foldl_concat]

theorem jsMapOfList_keys (entries : List (String × SearchHit)) :
    (jsMapOfList entries).map Prod.fst = firstKeys (entries.map Prod.fst) := by
  induction entries using List.reverseRecOn with
  | nil => rfl
  | append_singleton es p ih =>
    rw [jsMapOfList_concat, mapSet_keys, ih, List.map_append,
      show List.map Prod.fst [p] = [p.1] from rfl, firstKeys_concat]
    simp only [mem_firstKeys]

theorem jsMapOfList_mem (entries : List (String × SearchHit)) :
    ∀ q ∈ jsMapOfList entries, q ∈ entries := by
  induction entries using List.reverseRecOn with
  | nil => intro q hq; exact absurd hq (by simp [jsMapOfList])
  | append_singleton es p ih =>
    intro q hq
    rw [jsMapOfList_concat] at hq
    rcases mem_mapSet _ _ _ q hq with h | ⟨h, _⟩
    · rw [h]
      exact List.mem_append_right es (by simp)
    · exact List.mem_append_left _ (ih q h)

theorem jsMapOfList_lastEntry (entries : List (String × SearchHit)) :
    ∀ q ∈ jsMapOfList entries,
      entries.reverse.find? (fun r => r.1 == q.1) = some q := by
  induction entries using List.reverseRecOn with
  | nil => intro q hq; exact absurd hq (by simp [jsMapOfList])
  | append_singleton es p ih =>
    intro q hq
    rw [jsMapOfList_concat] at hq
    rw [List.reverse_concat]
    rcases mem_mapSet _ _ _ q hq with h | ⟨h, hne⟩
    · rw [h]
      rw [List.find?_cons_of_pos _ (by simp)]
    · rw [List.find?_cons_of_neg _
        (by simp only [beq_iff_eq]; exact fun hpq => hne hpq.symm)]
      exact ih q h

/-- The characterization of map-based deduplication: the output titles are
the input titles with later duplicates dropped (first occurrence fixes the
position), and each surviving hit is the last input hit of its title (last
occurrence fixes the content). -/
theorem uniqueResults_char (sem lex : List SearchHit) :
    ((uniqueResults sem lex).map (fun h => h.title)
        = firstKeys ((sem ++ lex).map (fun h => h.title)))
    ∧ (∀ h ∈ uniqueResults sem lex, lastWithTitle (sem ++ lex) h.title = some h) := by
  have hfst : ∀ q ∈ jsMapOfList
      ((sem ++ lex).map (fun item => (item.title, item))), q.2.title = q.1 := by
    intro q hq
    have hmem := jsMapOfList_mem _ q hq
    rw [List.mem_map] at hmem
    obtain ⟨i, _, hi⟩ := hmem
    rw [← hi]
  constructor
  · unfold uniqueResults
    rw [List.map_map]
    calc (jsMapOfList ((sem ++ lex).map (fun item => (item.title, item)))).map
          ((fun h => h.title) ∘ Prod.snd)
        = (jsMapOfList ((sem ++ lex).map (fun item => (item.title, item)))).map
            Prod.fst :=
          List.map_congr_left fun q hq => by simpa using hfst q hq
      _ = firstKeys (((sem ++ lex).map (fun item => (item.title, item))).map
            Prod.fst) := jsMapOfList_keys _
      _ = firstKeys ((sem ++ lex).map (fun h => h.title)) := by
          rw [List.map_map]
          exact congrArg firstKeys (List.map_congr_left fun a _ => rfl)
  · intro h hh
    unfold uniqueResults at hh
    rw [List.mem_map] at hh
    obtain ⟨q, hq, hqh⟩ := hh
    have hlast := jsMapOfList_lastEntry _ q hq
    rw [← List.map_reverse, List.find?_map] at hlast
    unfold lastWithTitle
    have hpred : ((fun r : String × SearchHit => r.1 == q.1) ∘
        fun item => (item.title, item)) = fun i => i.title == q.1 := rfl
    rw [hpred] at hlast
    cases hfind : (sem ++ lex).reverse.find? (fun i => i.title == q.1) with
    | none => rw [hfind] at hlast; exact absurd hlast (by simp)
    | some i =>
      rw [hfind] at hlast
      have hlast2 : (i.title, i) = q := Option.some.inj hlast
      have hiq : i = q.2 := congrArg Prod.snd hlast2
      rw [← hqh, hfst q hq, hfind, hiq]

/-- C2: deduplication keeps the first occurrence's position and the last
occurrence's content for every title; in particular, semantic hits `[A, B]`
with lexical hits `[B, C]` merge to `[A, B, C]` in that order with `B`'s
content taken from the lexical copy. -/
theorem C2_dedup_first_position_last_content (sem lex : List SearchHit) :
    ((uniqueResults sem lex).map (fun h => h.title)
        = firstKeys ((sem ++ lex).map (fun h => h.title)))
    ∧ (∀ h ∈ uniqueResults sem lex, lastWithTitle (sem ++ lex) h.title = some h)
    ∧ uniqueResults [hitA, hitBsem] [hitBlex, hitC] = [hitA, hitBlex, hitC] :=
  ⟨(uniqueResults_char sem lex).1, (uniqueResults_char sem lex).2, by decide⟩

/-- C2 (witness): in the spec's scenario, the surviving copy of title `B`
is the lexical one. -/
theorem C2_witness :
    lastWithTitle ([hitA, hitBsem] ++ [hitBlex, hitC]) hitBlex.title = some hitBlex :=
  (C2_dedup_first_position_last_content [hitA, hitBsem] [hitBlex, hitC]).2.1
    hitBlex (by decide)

/-- C5: the report renders the deduplicated sequence truncated to `limit`
entries (so never more than `limit` ranked entries), while the header counts
the deduplicated hits before truncation; and zero hits from both strategies
produce the `Found 0` header with an empty body rather than an error. -/
theorem C5_limit_and_header (sem lex : List SearchHit) (q : String) (k : Nat) :
    (searchAndCombineResults sem lex q k
        = "Found " ++ toString (uniqueResults sem lex).length ++
          " notes matching \"" ++ q ++ "\":\n\n" ++
          processResults ((uniqueResults sem lex).take k) 1)
    ∧ ((uniqueResults sem lex).take k).length ≤ k
    ∧ searchAndCombineResults [] [] q k
        = "Found 0 notes matching \"" ++ q ++ "\":\n\n" := by
  refine ⟨rfl, ?_, ?_⟩
  · rw [List.length_take]
    exact inf_le_left
  · unfold searchAndCombineResults
    dsimp only
    rw [show uniqueResults ([] : List SearchHit) [] = [] from rfl, List.take_nil,
      show processResults [] 1 = "" from rfl, String.append_empty]
    rfl

/-- C6: each surviving hit is rendered as `"{rank}. **{title}**\n{snippet}\n"`
with rank `index + 1` in final order and entries joined by `"\n"` (hence
separated by a blank line, as every entry ends in `"\n"` itself); the
snippet is the content verbatim when its length is at most 300 and exactly
the first 300 characters followed by `"..."` otherwise. -/
theorem C6_render_format (results : List SearchHit) :
    (processResults results 1 = String.intercalate "\n"
        (results.enum.map (fun p =>
          toString (1 + p.1) ++ ". **" ++ p.2.title ++ "**\n" ++
            snippet p.2.content ++ "\n")))
    ∧ (∀ c : String, c.length ≤ 300 → snippet c = c)
    ∧ (∀ c : String, c.length > 300 → snippet c = c.take 300 ++ "...") := by
  refine ⟨rfl, ?_, ?_⟩
  · intro c hc
    unfold snippet
    rw [if_neg (by omega)]
  · intro c hc
    unfold snippet
    rw [if_pos hc]

/-- C6 (witness): short content is rendered verbatim. -/
theorem C6_witness : snippet "abc" = "abc" :=
  (C6_render_format []).2.1 "abc" (by decide)

/-!
Provisioner lemmas (`createNotesTable`)
-/

theorem tables_any_iff (db : DB) (name : String) :
    (db.tables.any (fun p => p.1 == name) = true) ↔ name ∈ db.tables.map Prod.fst := by
  rw [List.any_eq_true, List.mem_map]
  constructor
  · rintro ⟨p, hp, hpk⟩
    exact ⟨p, hp, beq_iff_eq.mp hpk⟩
  · rintro ⟨p, hp, hpk⟩
    exact ⟨p, hp, beq_iff_eq.mpr hpk⟩

theorem any_beq_iff (l : List String) (c : String) :
    (l.any (fun i => i == c) = true) ↔ c ∈ l := by
  rw [List.any_eq_true]
  constructor
  · rintro ⟨i, hi, hic⟩
    exact beq_iff_eq.mp hic ▸ hi
  · intro hc
    exact ⟨c, hc, beq_iff_eq.mpr rfl⟩

theorem createEmptyTable_mem (db : DB) (name : String)
    (h : name ∈ db.tables.map Prod.fst) : createEmptyTable db name = db := by
  unfold createEmptyTable
  rw [if_pos ((tables_any_iff db name).mpr h)]

theorem createEmptyTable_not_mem (db : DB) (name : String)
    (h : name ∉ db.tables.map Prod.fst) :
    createEmptyTable db name
      = { tables := db.tables ++ [(name, { indices := [] })] } := by
  unfold createEmptyTable
  rw [if_neg (fun hc => h ((tables_any_iff db name).mp hc))]

theorem find?_key_none (ts : List (String × TableInfo)) (name : String)
    (h : name ∉ ts.map Prod.fst) :
    ts.find? (fun p => p.1 == name) = none := by
  rw [List.find?_eq_none]
  intro p hp hpk
  exact h (beq_iff_eq.mp hpk ▸ List.mem_map_of_mem Prod.fst hp)

theorem listIndices_not_mem (db : DB) (name : String)
    (h : name ∉ db.tables.map Prod.fst) : listIndices db name = [] := by
  unfold listIndices
  rw [find?_key_none db.tables name h]

theorem listIndices_append_new (db : DB) (name : String) (ti : TableInfo)
    (h : name ∉ db.tables.map Prod.fst) :
    listIndices { tables := db.tables ++ [(name, ti)] } name = ti.indices := by
  unfold listIndices
  rw [List.find?_append, find?_key_none db.tables name h, Option.none_or,
    List.find?_cons_of_pos _ (by simp)]

theorem listIndices_nodup (db : DB) (name : String)
    (hidx : ∀ p ∈ db.tables, p.2.indices.Nodup) : (listIndices db name).Nodup := by
  unfold listIndices
  cases hf : db.tables.find? (fun p => p.1 == name) with
  | none => exact List.nodup_nil
  | some p => exact hidx p (List.mem_of_find?_eq_some hf)

theorem createContentIndex_keys (db : DB) (name : String) :
    (createContentIndex db name).tables.map Prod.fst = db.tables.map Prod.fst := by
  unfold createContentIndex
  rw [List.map_map]
  refine List.map_congr_left fun p _ => ?_
  by_cases hpk : p.1 = name
  · simp [Function.comp, hpk]
  · simp [Function.comp, hpk]

theorem listIndices_createContentIndex (db : DB) (name : String)
    (h : name ∈ db.tables.map Prod.fst) :
    listIndices (createContentIndex db name) name
      = (listIndices db name).filter (fun i => i != "content_idx")
        ++ ["content_idx"] := by
  unfold listIndices createContentIndex
  rw [List.find?_map]
  have hpred : ((fun p : String × TableInfo => p.1 == name) ∘ fun p =>
      if p.1 == name then
        (p.1, ({ indices := p.2.indices.filter (fun i => i != "content_idx")
            ++ ["content_idx"] } : TableInfo))
      else p) = (fun p => p.1 == name) := by
    funext p
    by_cases hpk : p.1 = name
    · simp [Function.comp, hpk]
    · simp [Function.comp, hpk]
  rw [hpred]
  cases hf : db.tables.find? (fun p => p.1 == name) with
  | none =>
    exfalso
    rw [List.find?_eq_none] at hf
    rw [List.mem_map] at h
    obtain ⟨p, hp, hpk⟩ := h
    exact hf p hp (by simp [hpk])
  | some p =>
    have hpk0 := List.find?_some hf
    have hpk : (p.1 == name) = true := hpk0
    rw [Option.map_some', if_pos hpk]

theorem createNotesTable_eq (db : DB) (nm : Option String) :
    createNotesTable db nm =
      if ((listIndices (createEmptyTable db (nm.getD "notes")) (nm.getD "notes")).any
          (fun i => i == "content_idx"))
      then (createEmptyTable db (nm.getD "notes"),
        [.createTable (nm.getD "notes")])
      else (createContentIndex (createEmptyTable db (nm.getD "notes")) (nm.getD "notes"),
        [.createTable (nm.getD "notes"),
         .createIndex (nm.getD "notes") "content"]) := rfl

theorem createNotesTable_mem_cidx (db : DB) (nm : Option String)
    (hmem : (nm.getD "notes") ∈ db.tables.map Prod.fst)
    (hc : "content_idx" ∈ listIndices db (nm.getD "notes")) :
    createNotesTable db nm = (db, [.createTable (nm.getD "notes")]) := by
  rw [createNotesTable_eq, createEmptyTable_mem db _ hmem,
    if_pos ((any_beq_iff _ _).mpr hc)]

theorem createNotesTable_mem_nocidx (db : DB) (nm : Option String)
    (hmem : (nm.getD "notes") ∈ db.tables.map Prod.fst)
    (hc : "content_idx" ∉ listIndices db (nm.getD "notes")) :
    createNotesTable db nm = (createContentIndex db (nm.getD "notes"),
      [.createTable (nm.getD "notes"),
       .createIndex (nm.getD "notes") "content"]) := by
  rw [createNotesTable_eq, createEmptyTable_mem db _ hmem,
    if_neg (fun ha => hc ((any_beq_iff _ _).mp ha))]

theorem createNotesTable_not_mem (db : DB) (nm : Option String)
    (hmem : (nm.getD "notes") ∉ db.tables.map Prod.fst) :
    createNotesTable db nm =
      (createContentIndex
        { tables := db.tables ++ [((nm.getD "notes"), { indices := [] })] }
        (nm.getD "notes"),
      [.createTable (nm.getD "notes"),
       .createIndex (nm.getD "notes") "content"]) := by
  rw [createNotesTable_eq, createEmptyTable_not_mem db _ hmem,
    listIndices_append_new db _ _ hmem]
  rw [if_neg (by simp [List.any_nil])]

/-- After any first `createNotesTable` call, the table exists and carries an
index named `content_idx`. -/
theorem createNotesTable_post (db : DB) (nm : Option String) :
    (nm.getD "notes") ∈ ((createNotesTable db nm).1).tables.map Prod.fst
    ∧ "content_idx" ∈ listIndices ((createNotesTable db nm).1) (nm.getD "notes") := by
  by_cases hmem : (nm.getD "notes") ∈ db.tables.map Prod.fst
  · by_cases hc : "content_idx" ∈ listIndices db (nm.getD "notes")
    · rw [createNotesTable_mem_cidx db nm hmem hc]
      exact ⟨hmem, hc⟩
    · rw [createNotesTable_mem_nocidx db nm hmem hc]
      refine ⟨?_, ?_⟩
      · show _ ∈ (createContentIndex db _).tables.map Prod.fst
        rw [createContentIndex_keys]
        exact hmem
      · show _ ∈ listIndices (createContentIndex db _) _
        rw [listIndices_createContentIndex db _ hmem]
        exact List.mem_append_right _ (List.mem_singleton_self "content_idx")
  · rw [createNotesTable_not_mem db nm hmem]
    have hmem1 : (nm.getD "notes") ∈
        ({ tables := db.tables ++ [((nm.getD "notes"), { indices := [] })] } : DB).tables.map
          Prod.fst := by
      show _ ∈ (db.tables ++ _).map Prod.fst
      rw [List.map_append]
      exact List.mem_append_right _ (by simp)
    refine ⟨?_, ?_⟩
    · show _ ∈ (createContentIndex _ _).tables.map Prod.fst
      rw [createContentIndex_keys]
      exact hmem1
    · show _ ∈ listIndices (createContentIndex _ _) _
      rw [listIndices_createContentIndex _ _ hmem1]
      exact List.mem_append_right _ (List.mem_singleton_self "content_idx")

theorem createNotesTable_keys_nodup (db : DB) (nm : Option String)
    (hkeys : (db.tables.map Prod.fst).Nodup) :
    (((createNotesTable db nm).1).tables.map Prod.fst).Nodup := by
  by_cases hmem : (nm.getD "notes") ∈ db.tables.map Prod.fst
  · by_cases hc : "content_idx" ∈ listIndices db (nm.getD "notes")
    · rw [createNotesTable_mem_cidx db nm hmem hc]
      exact hkeys
    · rw [createNotesTable_mem_nocidx db nm hmem hc]
      show ((createContentIndex db _).tables.map Prod.fst).Nodup
      rw [createContentIndex_keys]
      exact hkeys
  · rw [createNotesTable_not_mem db nm hmem]
    show ((createContentIndex _ _).tables.map Prod.fst).Nodup
    rw [createContentIndex_keys]
    show ((db.tables ++ _).map Prod.fst).Nodup
    rw [List.map_append]
    rw [List.nodup_append]
    refine ⟨hkeys, by simp, ?_⟩
    intro a ha hb
    simp only [List.map_cons, List.map_nil, List.mem_singleton] at hb
    exact hmem (hb ▸ ha)

theorem createNotesTable_name_count (db : DB) (nm : Option String)
    (hkeys : (db.tables.map Prod.fst).Nodup) :
    (((createNotesTable db nm).1).tables.map Prod.fst).count (nm.getD "notes") = 1 :=
  List.count_eq_one_of_mem (createNotesTable_keys_nodup db nm hkeys)
    (createNotesTable_post db nm).1

theorem count_filter_ne_self (l : List String) :
    ("content_idx" : String) ∉ l.filter (fun i => i != "content_idx") := by
  intro hmem
  rw [List.mem_filter] at hmem
  exact (bne_iff_ne.mp hmem.2) rfl

theorem createNotesTable_cidx_count (db : DB) (nm : Option String)
    (hidx : ∀ p ∈ db.tables, p.2.indices.Nodup) :
    (listIndices ((createNotesTable db nm).1) (nm.getD "notes")).count
      "content_idx" = 1 := by
  by_cases hmem : (nm.getD "notes") ∈ db.tables.map Prod.fst
  · by_cases hc : "content_idx" ∈ listIndices db (nm.getD "notes")
    · rw [createNotesTable_mem_cidx db nm hmem hc]
      exact List.count_eq_one_of_mem (listIndices_nodup db _ hidx) hc
    · rw [createNotesTable_mem_nocidx db nm hmem hc]
      show (listIndices (createContentIndex db _) _).count "content_idx" = 1
      rw [listIndices_createContentIndex db _ hmem, List.count_append,
        List.count_eq_zero_of_not_mem (count_filter_ne_self _)]
      rfl
  · rw [createNotesTable_not_mem db nm hmem]
    show (listIndices (createContentIndex _ _) _).count "content_idx" = 1
    have hmem1 : (nm.getD "notes") ∈
        ({ tables := db.tables ++ [((nm.getD "notes"), { indices := [] })] } : DB).tables.map
          Prod.fst := by
      show _ ∈ (db.tables ++ _).map Prod.fst
      rw [List.map_append]
      exact List.mem_append_right _ (by simp)
    rw [listIndices_createContentIndex _ _ hmem1,
      listIndices_append_new db _ _ hmem]
    rfl

theorem createNotesTable_keeps_other (db : DB) (nm : Option String) :
    ∀ i ∈ listIndices db (nm.getD "notes"), i ≠ "content_idx" →
      i ∈ listIndices ((createNotesTable db nm).1) (nm.getD "notes") := by
  intro i hi hne
  by_cases hmem : (nm.getD "notes") ∈ db.tables.map Prod.fst
  · by_cases hc : "content_idx" ∈ listIndices db (nm.getD "notes")
    · rw [createNotesTable_mem_cidx db nm hmem hc]
      exact hi
    · rw [createNotesTable_mem_nocidx db nm hmem hc]
      show i ∈ listIndices (createContentIndex db _) _
      rw [listIndices_createContentIndex db _ hmem]
      exact List.mem_append_left _
        (List.mem_filter.mpr ⟨hi, bne_iff_ne.mpr hne⟩)
  · rw [listIndices_not_mem db _ hmem] at hi
    cases hi

/-- C7: provisioning is idempotent — after two `createNotesTable` calls on
the same (well-formed) storage state there is exactly one table of the
requested name carrying exactly one index named `content_idx`; the second
call leaves the state unchanged and makes no index-creation call (because
the listed indices already contain `content_idx`); and a pre-existing index
of a different name on that table is still present afterwards. -/
theorem C7_idempotent_provisioning (db : DB) (nm : Option String)
    (hkeys : (db.tables.map Prod.fst).Nodup)
    (hidx : ∀ p ∈ db.tables, p.2.indices.Nodup) :
    ((createNotesTable ((createNotesTable db nm).1) nm).1 = (createNotesTable db nm).1)
    ∧ (∀ t f, StorageAction.createIndex t f ∉
        (createNotesTable ((createNotesTable db nm).1) nm).2)
    ∧ ((((createNotesTable ((createNotesTable db nm).1) nm).1).tables.map
        Prod.fst).count (nm.getD "notes") = 1)
    ∧ ((listIndices ((createNotesTable ((createNotesTable db nm).1) nm).1)
        (nm.getD "notes")).count "content_idx" = 1)
    ∧ (∀ i ∈ listIndices db (nm.getD "notes"), i ≠ "content_idx" →
        i ∈ listIndices ((createNotesTable ((createNotesTable db nm).1) nm).1)
          (nm.getD "notes")) := by
  obtain ⟨hm1, hc1⟩ := createNotesTable_post db nm
  have hsecond := createNotesTable_mem_cidx _ nm hm1 hc1
  rw [hsecond]
  refine ⟨rfl, ?_, ?_, ?_, ?_⟩
  · intro t f
    simp
  · exact createNotesTable_name_count db nm hkeys
  · exact createNotesTable_cidx_count db nm hidx
  · exact createNotesTable_keeps_other db nm

/-- C7 (witness): provisioning twice from an empty storage state yields
exactly one `content_idx` index on the default table. -/
theorem C7_witness :
    (listIndices ((createNotesTable ((createNotesTable (DB.mk []) none).1) none).1)
      "notes").count "content_idx" = 1 :=
  (C7_idempotent_provisioning (DB.mk []) none (by simp) (by simp)).2.2.2.1

end AppleNotes
